import Mathlib

/-!
Shallow embedding of `src/location_poi/get_top_candidates.py`: the geospatial
candidate-ranking engine (find_top_candidates and its helpers).

Modelling conventions:
* Python floats (coordinates, radii, route distances) are modelled as `ℚ`.
  `float('inf')` route distances are modelled as `none : Option ℚ`.
* A POI dict is modelled as a record of optional fields: a `none` field models
  an absent dict key. Only the fields the engine reads are modelled; `name`
  stands in for the free payload of a record.
* Python exceptions are modelled with `Except String`: a raised exception is
  `Except.error`, and catching is explicit in the translation.
* The external collaborators (osmnx `graph_from_point` / `nearest_nodes`,
  networkx `astar_path_length`) are modelled as abstract functions bundled in
  `Graph` and a provider function `Mode → Option Graph`; per the collaborator
  contract any provider failure yields `none`.
* `concurrent.futures.ThreadPoolExecutor(max_workers=w)` raises `ValueError`
  when `w ≤ 0` (documented Python stdlib behaviour); `executor.map` yields
  results in submission order and re-raises a task's exception when its result
  is iterated. The per-candidate tasks are pure, so the fan-out is modelled as
  an in-order traversal that propagates the first error.
* Python's `list.sort` is a stable sort; since all stable sorts compute the
  same list, it is modelled by a stable insertion sort (`sortByKey`).
* Mutation of a dict is modelled by state passing: `process_candidate` returns
  the post-state of its input record next to its outcome. The source mutates
  only `poi_copy` (a fresh dict via `poi.copy()`), so the post-state is the
  input record itself; an in-place implementation would return the updated
  record here.
-/

namespace LocPoi

/-- Travel modes: the closed enumeration used by the engine (`modes = ['drive', 'walk']`). -/
inductive Mode where
  | drive
  | walk
deriving DecidableEq, Repr

/-- A POI record (Python dict). `none` models an absent key. `driveDist` and
`walkDist` model the attached `drive_route_distance_m` / `walk_route_distance_m`
keys. -/
structure POI where
  name : Option String := none
  latitude : Option ℚ := none
  longitude : Option ℚ := none
  subcategory : Option String := none
  driveDist : Option ℚ := none
  walkDist : Option ℚ := none
deriving DecidableEq, Repr

/-- Reading the `{mode}_route_distance_m` key of a record. -/
def modeDist (p : POI) : Mode → Option ℚ
  | Mode.drive => p.driveDist
  | Mode.walk => p.walkDist

/-- Writing the `{mode}_route_distance_m` key of a record
(`poi_copy[f"{travel_mode}_route_distance_m"] = route_distance`). -/
def setModeDist (p : POI) : Mode → ℚ → POI
  | Mode.drive, d => { p with driveDist := some d }
  | Mode.walk, d => { p with walkDist := some d }

/-- The required keys missing from a record
(`required_keys - poi.keys()` for `required_keys = {latitude, longitude, subcategory}`). -/
def missingKeys (p : POI) : List String :=
  (if p.latitude.isNone then ["latitude"] else []) ++
  (if p.longitude.isNone then ["longitude"] else []) ++
  (if p.subcategory.isNone then ["subcategory"] else [])

/-- `required_keys.issubset(poi.keys())`. -/
def hasRequiredKeys (p : POI) : Bool :=
  p.latitude.isSome && p.longitude.isSome && p.subcategory.isSome

/-- `validate_poi_data`: raises `ValueError` when a required key is missing,
otherwise returns the record (`POIData(poi)` is a `TypedDict` constructor and
returns an equal dict). -/
def validate_poi_data (p : POI) : Except String POI :=
  if missingKeys p = [] then Except.ok p
  else Except.error ("Invalid POI data, missing keys: " ++ String.intercalate ", " (missingKeys p))

/-- A routable street graph, as the engine observes it: a node set, the nearest-node
resolver (osmnx `distance.nearest_nodes`, memoized by `get_node_for_coords`), and the
shortest-path oracle (networkx `astar_path_length`; `none` models `NetworkXNoPath`). -/
structure Graph where
  nodes : List Nat
  nearest : ℚ → ℚ → Nat
  astar : Nat → Nat → Option ℚ

/-- `get_route_distance`: resolve both endpoints, return inf (`none`) if either node
is absent from the graph, `0` if they coincide, otherwise the A* path length
(`none` when no path exists). -/
def get_route_distance (g : Graph) (user_lat user_lon candidate_lat candidate_lon : ℚ) :
    Option ℚ :=
  let user_node := g.nearest user_lat user_lon
  let candidate_node := g.nearest candidate_lat candidate_lon
  if user_node ∉ g.nodes ∨ candidate_node ∉ g.nodes then none
  else if user_node = candidate_node then some 0
  else g.astar user_node candidate_node

/-- Outcome of `process_candidate` on one record: reading a missing
`latitude`/`longitude` key raises `KeyError`, which the source catches and turns
into `None`; an infinite or over-radius distance yields `None`; otherwise the
distance is attached to a copy of the record and the copy is validated.
`validate_poi_data`'s `ValueError` is NOT caught (the handler catches only
`KeyError`), so it propagates as `Except.error`. -/
def processOutcome (g : Graph) (user_lat user_lon : ℚ) (poi : POI) (travel_mode : Mode)
    (radius_m : ℚ) : Except String (Option POI) :=
  match poi.latitude, poi.longitude with
  | some candidate_lat, some candidate_lon =>
    match get_route_distance g user_lat user_lon candidate_lat candidate_lon with
    | none => Except.ok none
    | some route_distance =>
      if radius_m < route_distance then Except.ok none
      else
        match validate_poi_data (setModeDist poi travel_mode route_distance) with
        | Except.ok q => Except.ok (some q)
        | Except.error e => Except.error e
  | _, _ => Except.ok none

/-- `process_candidate`: returns the post-state of the caller's record next to the
outcome. The source writes only to `poi_copy = poi.copy()`, never to `poi`, so the
post-state is the input record. -/
def process_candidate (g : Graph) (user_lat user_lon : ℚ) (poi : POI) (travel_mode : Mode)
    (radius_m : ℚ) : POI × Except String (Option POI) :=
  (poi, processOutcome g user_lat user_lon poi travel_mode radius_m)

/-- The `executor.map(process_candidate, args_list)` loop: post-states of all records,
and either the collected non-`None` results in submission order, or the first raised
exception. -/
def processAll (g : Graph) (user_lat user_lon : ℚ) (travel_mode : Mode) (radius_m : ℚ) :
    List POI → List POI × Except String (List POI)
  | [] => ([], Except.ok [])
  | poi :: rest =>
    let step := process_candidate g user_lat user_lon poi travel_mode radius_m
    let next := processAll g user_lat user_lon travel_mode radius_m rest
    (step.1 :: next.1,
      match step.2 with
      | Except.error e => Except.error e
      | Except.ok none => next.2
      | Except.ok (some x) =>
        match next.2 with
        | Except.error e => Except.error e
        | Except.ok l => Except.ok (x :: l))

/-- Sort key `lambda x: x[f"{mode}_route_distance_m"]`. Every record reaching the
sort carries the key (it was attached in `process_candidate`), so the Python
`KeyError` path is unreachable and the `getD` default is never consulted. -/
def sortKey (travel_mode : Mode) (p : POI) : ℚ :=
  (modeDist p travel_mode).getD 0

/-- Stable insertion of `x` into `l`: `x` goes before the first element whose key is
not smaller, so earlier-submitted records stay ahead of equal-key later ones. -/
def insertSorted {α : Type} (key : α → ℚ) (x : α) : List α → List α
  | [] => [x]
  | y :: ys => if key y < key x then y :: insertSorted key x ys else x :: y :: ys

/-- Stable sort by a rational key, modelling Python's stable `list.sort(key=...)`
(all stable sorts agree on the output list). -/
def sortByKey {α : Type} (key : α → ℚ) : List α → List α
  | [] => []
  | x :: xs => insertSorted key x (sortByKey key xs)

/-- The `all_results` dict: an insertion-ordered association list from mode to
ranked list. A mode whose graph was unavailable has no entry. -/
abbrev AllResults := List (Mode × List POI)

/-- Key lookup in an `all_results` dict. -/
def resLookup (res : AllResults) (m : Mode) : Option (List POI) :=
  match res with
  | [] => none
  | (m', l) :: rest => if m' = m then some l else resLookup rest m

/-- `candidates.get(mode, [])`. -/
def lookupMode (res : AllResults) (m : Mode) : List POI :=
  (resLookup res m).getD []

/-- The dict entry produced for one mode: present iff the mode completed. -/
def optEntry (m : Mode) : Option (List POI) → AllResults
  | some l => [(m, l)]
  | none => []

/-- One iteration of the mode loop in `get_top_n_by_route_distance_for_all_modes`:
skip the mode when the graph provider failed; otherwise create the worker pool
(`ThreadPoolExecutor(max_workers=min(32, len(candidates)))` raises `ValueError`
when that size is 0), process every candidate, then sort the survivors by the
mode's distance key and truncate to `n`. Returns (post-states, outcome); the
outcome's `none` means the mode was skipped. -/
def runMode (getGraph : Mode → Option Graph) (user_lat user_lon radius_m : ℚ) (n : ℕ)
    (candidates : List POI) (travel_mode : Mode) :
    List POI × Except String (Option (List POI)) :=
  match getGraph travel_mode with
  | none => (candidates, Except.ok none)
  | some graph =>
    if Nat.min 32 candidates.length = 0 then
      (candidates, Except.error "ValueError: max_workers must be greater than 0")
    else
      let step := processAll graph user_lat user_lon travel_mode radius_m candidates
      (step.1,
        match step.2 with
        | Except.error e => Except.error e
        | Except.ok valid =>
          Except.ok (some ((sortByKey (sortKey travel_mode) valid).take n)))

/-- `get_top_n_by_route_distance_for_all_modes`: the mode loop over
`['drive', 'walk']`, building the `all_results` dict. An exception from a mode
aborts the loop; a skipped mode contributes no dict entry. -/
def get_top_n_by_route_distance_for_all_modes (getGraph : Mode → Option Graph)
    (candidates : List POI) (user_lat user_lon radius_m : ℚ) (n : ℕ) :
    List POI × Except String AllResults :=
  let driveStep := runMode getGraph user_lat user_lon radius_m n candidates Mode.drive
  match driveStep.2 with
  | Except.error e => (driveStep.1, Except.error e)
  | Except.ok o1 =>
    let walkStep := runMode getGraph user_lat user_lon radius_m n driveStep.1 Mode.walk
    match walkStep.2 with
    | Except.error e => (walkStep.1, Except.error e)
    | Except.ok o2 =>
      (walkStep.1, Except.ok (optEntry Mode.drive o1 ++ optEntry Mode.walk o2))

/-- The list comprehension `[validate_poi_data(poi) for poi in ...]`: validates
left to right, raising at the first invalid record. -/
def validateList : List POI → Except String (List POI)
  | [] => Except.ok []
  | p :: ps =>
    match validate_poi_data p with
    | Except.error e => Except.error e
    | Except.ok q =>
      match validateList ps with
      | Except.error e => Except.error e
      | Except.ok qs => Except.ok (q :: qs)

/-- `validate_top_candidates`: rebuilds the dict with both keys of
`valid_modes = {'drive', 'walk'}`, validating every listed record; a mode absent
from the input dict contributes an empty list (`candidates.get(mode, [])`).
Python iterates the set in an unspecified order; only key membership is
observable, and the model emits the drive entry first. -/
def validate_top_candidates (res : AllResults) : Except String AllResults :=
  match validateList (lookupMode res Mode.drive) with
  | Except.error e => Except.error e
  | Except.ok dl =>
    match validateList (lookupMode res Mode.walk) with
    | Except.error e => Except.error e
    | Except.ok wl => Except.ok [(Mode.drive, dl), (Mode.walk, wl)]

/-- Whether the Haversine prefilter keeps a record: a missing coordinate key
raises `KeyError`, which the source catches with `continue` (record dropped);
otherwise the record is kept iff its Haversine distance from the user is at most
`max_distance_m`. The Haversine formula itself is floating-point trigonometry
(Earth radius 6,371,000 m) and is modelled as the abstract oracle `hav`. -/
def keepsPOI (hav : ℚ → ℚ → ℚ → ℚ → ℚ) (user_lat user_lon max_distance_m : ℚ)
    (poi : POI) : Bool :=
  match poi.latitude, poi.longitude with
  | some la, some lo => decide (hav user_lat user_lon la lo ≤ max_distance_m)
  | _, _ => false

/-- `prefilter_candidates_by_distance`: keeps, in order, exactly the records within
`max_distance_m` of the user (selection only; the kept list shares its records
with the input). -/
def prefilter_candidates_by_distance (hav : ℚ → ℚ → ℚ → ℚ → ℚ) (candidates : List POI)
    (user_lat user_lon max_distance_m : ℚ) : List POI :=
  candidates.filter (keepsPOI hav user_lat user_lon max_distance_m)

/-- Maps the post-states of the prefiltered records (which alias records of the
full candidate list) back onto their positions in the full list: the k-th record
satisfying `pred` is replaced by the k-th post-state. -/
def applyPosts (pred : POI → Bool) (posts : List POI) : List POI → List POI
  | [] => []
  | c :: cs =>
    if pred c then
      match posts with
      | [] => c :: applyPosts pred [] cs
      | p :: ps => p :: applyPosts pred ps cs
    else c :: applyPosts pred posts cs

/-- `find_top_candidates`: empty input returns the empty dict `{}` at once; more
than 50 candidates are Haversine-prefiltered with radius `radius_m * 1.5` and the
raw per-mode dict is returned WITHOUT `validate_top_candidates`; otherwise the
per-mode dict is validated (which forces both mode keys to be present). The first
component is the post-state of the caller's candidate records. -/
def find_top_candidates (hav : ℚ → ℚ → ℚ → ℚ → ℚ) (getGraph : Mode → Option Graph)
    (candidates : List POI) (user_lat user_lon : ℚ) (radius_m : ℚ) (n : ℕ) :
    List POI × Except String AllResults :=
  if candidates.length = 0 then (candidates, Except.ok [])
  else if 50 < candidates.length then
    let pred := keepsPOI hav user_lat user_lon (radius_m * (3 / 2))
    let prefiltered :=
      prefilter_candidates_by_distance hav candidates user_lat user_lon (radius_m * (3 / 2))
    let step :=
      get_top_n_by_route_distance_for_all_modes getGraph prefiltered user_lat user_lon radius_m n
    (applyPosts pred step.1 candidates, step.2)
  else
    let step :=
      get_top_n_by_route_distance_for_all_modes getGraph candidates user_lat user_lon radius_m n
    (step.1,
      match step.2 with
      | Except.error e => Except.error e
      | Except.ok res => validate_top_candidates res)

/-- The candidate list actually fed to the routing stage: the prefiltered list when
the input exceeds 50 records, the input list otherwise. -/
def effInput (hav : ℚ → ℚ → ℚ → ℚ → ℚ) (candidates : List POI)
    (user_lat user_lon radius_m : ℚ) : List POI :=
  if 50 < candidates.length then
    prefilter_candidates_by_distance hav candidates user_lat user_lon (radius_m * (3 / 2))
  else candidates

/-! The graph cache (`cached_graph : OrderedDict`, `MAX_CACHE_SIZE = 50`). The cache
is modelled as an insertion-ordered association list (head = oldest entry); the
cached graphs are an arbitrary type `V`. -/

/-- Cache key `(center_lat, center_lon, radius_m, mode)`. -/
abbrev GraphKey := ℚ × ℚ × ℚ × Mode

def MAX_CACHE_SIZE : ℕ := 50

abbrev GraphCache (V : Type) := List (GraphKey × V)

/-- `graph_key in cached_graph` / `cached_graph[graph_key]`. -/
def cacheLookup {V : Type} : GraphCache V → GraphKey → Option V
  | [], _ => none
  | (k', v) :: rest, k => if k' = k then some v else cacheLookup rest k

/-- `cached_graph[graph_key] = graph` on an `OrderedDict`: an existing key keeps its
position and gets the new value; a new key is appended at the end. -/
def odSet {V : Type} (c : GraphCache V) (k : GraphKey) (v : V) : GraphCache V :=
  if (cacheLookup c k).isSome then
    c.map (fun p => if p.1 = k then (k, v) else p)
  else c ++ [(k, v)]

/-- `cache_graph`: when the cache is at (or beyond) capacity, `popitem(last=False)`
drops the oldest-inserted entry, then the new binding is written. -/
def cache_graph {V : Type} (c : GraphCache V) (graph_key : GraphKey) (graph : V) :
    GraphCache V :=
  odSet (if MAX_CACHE_SIZE ≤ c.length then c.drop 1 else c) graph_key graph

/-- `get_network_graph`: a cache hit returns the cached graph immediately; otherwise
the provider (osmnx `graph_from_point` plus largest-connected-component extraction;
any exception yields `None`) is invoked once and a successful build is cached.
Returns (graph, cache post-state, number of provider invocations). -/
def get_network_graph {V : Type} (provider : GraphKey → Option V) (c : GraphCache V)
    (k : GraphKey) : Option V × GraphCache V × ℕ :=
  match cacheLookup c k with
  | some g => (some g, c, 0)
  | none =>
    match provider k with
    | none => (none, c, 1)
    | some g => (some g, cache_graph c k g, 1)

/-! Concrete fixtures used by the closed theorems and witnesses. -/

/-- A one-node graph: every coordinate resolves to node 0, so every route query
hits the coincident-node fast path. -/
def gOne : Graph := { nodes := [0], nearest := fun _ _ => 0, astar := fun _ _ => some 1 }

/-- A valid POI record at the origin. -/
def pGood : POI :=
  { name := some "A", latitude := some 0, longitude := some 0, subcategory := some "cafe" }

/-- A record with coordinates but no `subcategory` key. -/
def pBad : POI := { latitude := some 0, longitude := some 0 }

/-- `pGood` with `drive_route_distance_m = 0` attached. -/
def pGoodD : POI := setModeDist pGood Mode.drive 0

/-- `pGood` with `walk_route_distance_m = 0` attached. -/
def pGoodW : POI := setModeDist pGood Mode.walk 0

/-- A Haversine oracle that reports distance 0 everywhere. -/
def havZero : ℚ → ℚ → ℚ → ℚ → ℚ := fun _ _ _ _ => 0

/-- A Haversine oracle that reports a huge distance everywhere. -/
def havFar : ℚ → ℚ → ℚ → ℚ → ℚ := fun _ _ _ _ => 1000000

/-- A graph provider that fails for every mode. -/
def ggNone : Mode → Option Graph := fun _ => none

/-- A graph provider that succeeds for every mode. -/
def ggAll : Mode → Option Graph := fun _ => some gOne

/-- A graph provider that succeeds for drive and fails for walk. -/
def ggDriveOnly : Mode → Option Graph :=
  fun m => match m with | Mode.drive => some gOne | Mode.walk => none

/-- 51 identical valid candidates: enough to trigger the Haversine prefilter. -/
def cands51 : List POI := List.replicate 51 pGood

/-! Lemmas about the stable sort. -/

theorem insertSorted_perm {α : Type} (key : α → ℚ) (x : α) (l : List α) :
    (insertSorted key x l).Perm (x :: l) := by
  induction l with
  | nil => simp [insertSorted]
  | cons y ys ih =>
    rw [insertSorted]
    by_cases hc : key y < key x
    · rw [if_pos hc]
      exact (ih.cons y).trans (List.Perm.swap x y ys)
    · rw [if_neg hc]

theorem sortByKey_perm {α : Type} (key : α → ℚ) (l : List α) :
    (sortByKey key l).Perm l := by
  induction l with
  | nil => simp [sortByKey]
  | cons x xs ih =>
    rw [sortByKey]
    exact (insertSorted_perm key x (sortByKey key xs)).trans (ih.cons x)

theorem mem_insertSorted {α : Type} (key : α → ℚ) (x z : α) (l : List α) :
    z ∈ insertSorted key x l ↔ z = x ∨ z ∈ l := by
  rw [(insertSorted_perm key x l).mem_iff, List.mem_cons]

theorem insertSorted_pairwise {α : Type} (key : α → ℚ) (x : α) (l : List α)
    (h : l.Pairwise (fun a b => key a ≤ key b)) :
    (insertSorted key x l).Pairwise (fun a b => key a ≤ key b) := by
  induction l with
  | nil => simp [insertSorted]
  | cons y ys ih =>
    rw [List.pairwise_cons] at h
    rw [insertSorted]
    by_cases hc : key y < key x
    · rw [if_pos hc]
      rw [List.pairwise_cons]
      refine ⟨fun z hz => ?_, ih h.2⟩
      rcases (mem_insertSorted key x z ys).1 hz with hz | hz
      · exact hz ▸ le_of_lt hc
      · exact h.1 z hz
    · rw [if_neg hc]
      rw [List.pairwise_cons]
      refine ⟨fun z hz => ?_, List.pairwise_cons.2 h⟩
      rcases List.mem_cons.1 hz with hz | hz
      · exact hz ▸ le_of_not_lt hc
      · exact le_trans (le_of_not_lt hc) (h.1 z hz)

theorem sortByKey_pairwise {α : Type} (key : α → ℚ) (l : List α) :
    (sortByKey key l).Pairwise (fun a b => key a ≤ key b) := by
  induction l with
  | nil => simp [sortByKey]
  | cons x xs ih =>
    rw [sortByKey]
    exact insertSorted_pairwise key x (sortByKey key xs) ih

theorem filter_insertSorted {α : Type} (key : α → ℚ) (c : ℚ) (x : α) (l : List α) :
    (insertSorted key x l).filter (fun a => decide (key a = c)) =
    ((x :: l).filter (fun a => decide (key a = c))) := by
  induction l with
  | nil => rfl
  | cons y ys ih =>
    rw [insertSorted]
    by_cases hc : key y < key x
    · rw [if_pos hc]
      by_cases h1 : key x = c
      · have h2 : ¬ key y = c := by
          intro h2
          rw [h2, ← h1] at hc
          exact absurd hc (lt_irrefl _)
        simp [List.filter_cons, h1, h2, ih]
      · by_cases h2 : key y = c
        · simp [List.filter_cons, h1, h2, ih]
        · simp [List.filter_cons, h1, h2, ih]
    · rw [if_neg hc]

theorem filter_sortByKey {α : Type} (key : α → ℚ) (c : ℚ) (l : List α) :
    (sortByKey key l).filter (fun a => decide (key a = c)) =
    l.filter (fun a => decide (key a = c)) := by
  induction l with
  | nil => rfl
  | cons x xs ih =>
    rw [sortByKey, filter_insertSorted]
    by_cases h1 : key x = c
    · simp [List.filter_cons, h1, ih]
    · simp [List.filter_cons, h1, ih]

theorem sortByKey_ne_nil {α : Type} (key : α → ℚ) (l : List α) (h : l ≠ []) :
    sortByKey key l ≠ [] := by
  intro heq
  have := (sortByKey_perm key l).length_eq
  rw [heq] at this
  exact h (List.eq_nil_of_length_eq_zero this.symm)

theorem take_ne_nil_of_ne_nil {α : Type} (l : List α) (n : ℕ) (hn : 1 ≤ n) (h : l ≠ []) :
    l.take n ≠ [] := by
  cases l with
  | nil => exact absurd rfl h
  | cons x xs =>
    cases n with
    | zero => omega
    | succ m => simp [List.take]

/-! Lemmas about records and validation. -/

theorem modeDist_setModeDist_self (p : POI) (m : Mode) (d : ℚ) :
    modeDist (setModeDist p m d) m = some d := by
  cases m <;> rfl

theorem hasRequiredKeys_setModeDist (p : POI) (m : Mode) (d : ℚ) :
    hasRequiredKeys (setModeDist p m d) = hasRequiredKeys p := by
  cases m <;> rfl

theorem missingKeys_eq_nil (p : POI) : missingKeys p = [] ↔ hasRequiredKeys p = true := by
  rcases p with ⟨_, la, lo, sc, _, _⟩
  cases la <;> cases lo <;> cases sc <;> simp [missingKeys, hasRequiredKeys]

theorem validate_ok_of (p : POI) (h : hasRequiredKeys p = true) :
    validate_poi_data p = Except.ok p := by
  rw [validate_poi_data, if_pos ((missingKeys_eq_nil p).2 h)]

theorem validate_ok_inv (p q : POI) (h : validate_poi_data p = Except.ok q) :
    q = p ∧ hasRequiredKeys p = true := by
  rw [validate_poi_data] at h
  by_cases hm : missingKeys p = []
  · rw [if_pos hm] at h
    exact ⟨(Except.ok.injEq _ _ ▸ h).symm, (missingKeys_eq_nil p).1 hm⟩
  · rw [if_neg hm] at h
    exact absurd h (by simp)

theorem validateList_ok_inv (l l' : List POI) (h : validateList l = Except.ok l') :
    l' = l := by
  induction l generalizing l' with
  | nil =>
    rw [validateList] at h
    exact (Except.ok.injEq _ _ ▸ h).symm
  | cons p ps ih =>
    rw [validateList] at h
    rcases hv : validate_poi_data p with e | q
    · rw [hv] at h; exact absurd h (by simp)
    · rw [hv] at h
      rcases hr : validateList ps with e | qs
      · rw [hr] at h; exact absurd h (by simp)
      · rw [hr] at h
        have hq := (validate_ok_inv p q hv).1
        have hqs := ih qs hr
        simp only [Except.ok.injEq] at h
        rw [← h, hq, hqs]

theorem validateList_ok_of (l : List POI) (h : ∀ p ∈ l, hasRequiredKeys p = true) :
    validateList l = Except.ok l := by
  induction l with
  | nil => rfl
  | cons p ps ih =>
    rw [validateList, validate_ok_of p (h p (List.mem_cons_self p ps)),
      ih (fun q hq => h q (List.mem_cons_of_mem p hq))]

/-! Lemmas about candidate processing. -/

theorem processAll_nil (g : Graph) (u v : ℚ) (m : Mode) (r : ℚ) :
    processAll g u v m r [] = ([], Except.ok []) := rfl

theorem processAll_cons_fst (g : Graph) (u v : ℚ) (m : Mode) (r : ℚ) (p : POI) (ps : List POI) :
    (processAll g u v m r (p :: ps)).1 = p :: (processAll g u v m r ps).1 := rfl

theorem processAll_cons_snd (g : Graph) (u v : ℚ) (m : Mode) (r : ℚ) (p : POI) (ps : List POI) :
    (processAll g u v m r (p :: ps)).2 =
      (match processOutcome g u v p m r with
      | Except.error e => Except.error e
      | Except.ok none => (processAll g u v m r ps).2
      | Except.ok (some x) =>
        match (processAll g u v m r ps).2 with
        | Except.error e => Except.error e
        | Except.ok l => Except.ok (x :: l)) := rfl

theorem processAll_fst (g : Graph) (u v : ℚ) (m : Mode) (r : ℚ) (l : List POI) :
    (processAll g u v m r l).1 = l := by
  induction l with
  | nil => rfl
  | cons p ps ih => rw [processAll_cons_fst, ih]

theorem processOutcome_keep (g : Graph) (u v : ℚ) (p : POI) (m : Mode) (r la lo d : ℚ)
    (hla : p.latitude = some la) (hlo : p.longitude = some lo)
    (hd : get_route_distance g u v la lo = some d) (hdr : d ≤ r)
    (hreq : hasRequiredKeys p = true) :
    processOutcome g u v p m r = Except.ok (some (setModeDist p m d)) := by
  simp only [processOutcome, hla, hlo, hd]
  rw [if_neg (not_lt.2 hdr),
    validate_ok_of _ (by rw [hasRequiredKeys_setModeDist]; exact hreq)]

theorem processOutcome_ok_some_inv (g : Graph) (u v : ℚ) (p : POI) (m : Mode) (r : ℚ) (x : POI)
    (h : processOutcome g u v p m r = Except.ok (some x)) :
    ∃ la lo d, p.latitude = some la ∧ p.longitude = some lo ∧
      get_route_distance g u v la lo = some d ∧ d ≤ r ∧ x = setModeDist p m d ∧
      hasRequiredKeys x = true := by
  rcases hla : p.latitude with _ | la <;> rcases hlo : p.longitude with _ | lo <;>
    simp only [processOutcome, hla, hlo] at h
  · exact absurd h (by simp)
  · exact absurd h (by simp)
  · exact absurd h (by simp)
  rcases hd : get_route_distance g u v la lo with _ | d <;> simp only [hd] at h
  · exact absurd h (by simp)
  by_cases hlt : r < d
  · rw [if_pos hlt] at h
    exact absurd h (by simp)
  rw [if_neg hlt] at h
  rcases hv : validate_poi_data (setModeDist p m d) with e | q <;> rw [hv] at h
  · exact absurd h (by simp)
  simp only [Except.ok.injEq, Option.some.injEq] at h
  have hvq := validate_ok_inv _ _ hv
  refine ⟨la, lo, d, rfl, rfl, hd, not_lt.1 hlt, ?_, ?_⟩
  · rw [← h, hvq.1]
  · rw [← h, hvq.1]
    exact hvq.2

theorem processOutcome_ok_of_valid (g : Graph) (u v : ℚ) (p : POI) (m : Mode) (r : ℚ)
    (hreq : hasRequiredKeys p = true) :
    ∃ o, processOutcome g u v p m r = Except.ok o := by
  rcases hla : p.latitude with _ | la <;> rcases hlo : p.longitude with _ | lo
  · exact ⟨none, by simp only [processOutcome, hla, hlo]⟩
  · exact ⟨none, by simp only [processOutcome, hla, hlo]⟩
  · exact ⟨none, by simp only [processOutcome, hla, hlo]⟩
  rcases hd : get_route_distance g u v la lo with _ | d
  · exact ⟨none, by simp only [processOutcome, hla, hlo, hd]⟩
  by_cases hlt : r < d
  · exact ⟨none, by simp only [processOutcome, hla, hlo, hd]; rw [if_pos hlt]⟩
  · exact ⟨some (setModeDist p m d),
      processOutcome_keep g u v p m r la lo d hla hlo hd (not_lt.1 hlt) hreq⟩

theorem processAll_ok_mem (g : Graph) (u v : ℚ) (m : Mode) (r : ℚ) (l valid : List POI)
    (h : (processAll g u v m r l).2 = Except.ok valid) :
    ∀ x ∈ valid, ∃ p ∈ l, ∃ la lo d, p.latitude = some la ∧ p.longitude = some lo ∧
      get_route_distance g u v la lo = some d ∧ d ≤ r ∧ x = setModeDist p m d ∧
      hasRequiredKeys x = true := by
  induction l generalizing valid with
  | nil =>
    rw [processAll_nil] at h
    simp only [Except.ok.injEq] at h
    intro x hx
    rw [← h] at hx
    cases hx
  | cons p ps ih =>
    rw [processAll_cons_snd] at h
    rcases ho : processOutcome g u v p m r with e | o <;> rw [ho] at h
    · exact absurd h (by simp)
    cases o with
    | none =>
      intro x hx
      obtain ⟨q, hq, rest⟩ := ih valid h x hx
      exact ⟨q, List.mem_cons_of_mem p hq, rest⟩
    | some y =>
      rcases hr : (processAll g u v m r ps).2 with e | rest <;> rw [hr] at h
      · exact absurd h (by simp)
      simp only [Except.ok.injEq] at h
      intro x hx
      rw [← h] at hx
      rcases List.mem_cons.1 hx with hx | hx
      · obtain ⟨la, lo, d, hrest⟩ := processOutcome_ok_some_inv g u v p m r y ho
        exact ⟨p, List.mem_cons_self p ps, la, lo, d, hrest.1, hrest.2.1, hrest.2.2.1,
          hrest.2.2.2.1, hx ▸ hrest.2.2.2.2.1, hx ▸ hrest.2.2.2.2.2⟩
      · obtain ⟨q, hq, hrestq⟩ := ih rest hr x hx
        exact ⟨q, List.mem_cons_of_mem p hq, hrestq⟩

theorem processAll_ok_of_valid (g : Graph) (u v : ℚ) (m : Mode) (r : ℚ) (l : List POI)
    (h : ∀ p ∈ l, hasRequiredKeys p = true) :
    ∃ valid, (processAll g u v m r l).2 = Except.ok valid := by
  induction l with
  | nil => exact ⟨[], rfl⟩
  | cons p ps ih =>
    obtain ⟨rest, hrest⟩ := ih (fun q hq => h q (List.mem_cons_of_mem p hq))
    obtain ⟨o, ho⟩ := processOutcome_ok_of_valid g u v p m r (h p (List.mem_cons_self p ps))
    cases o with
    | none => exact ⟨rest, by rw [processAll_cons_snd, ho, hrest]⟩
    | some y => exact ⟨y :: rest, by rw [processAll_cons_snd, ho, hrest]⟩

theorem processAll_mem_some (g : Graph) (u v : ℚ) (m : Mode) (r : ℚ) (l valid : List POI)
    (p x : POI) (hp : p ∈ l) (ho : processOutcome g u v p m r = Except.ok (some x))
    (h : (processAll g u v m r l).2 = Except.ok valid) : x ∈ valid := by
  induction l generalizing valid with
  | nil => cases hp
  | cons q qs ih =>
    rw [processAll_cons_snd] at h
    rcases hoq : processOutcome g u v q m r with e | oq <;> rw [hoq] at h
    · exact absurd h (by simp)
    cases oq with
    | none =>
      rcases List.mem_cons.1 hp with hpq | hpq
      · rw [← hpq, ho] at hoq
        exact absurd hoq (by simp)
      · exact ih valid hpq h
    | some y =>
      rcases hr : (processAll g u v m r qs).2 with e | rest <;> rw [hr] at h
      · exact absurd h (by simp)
      simp only [Except.ok.injEq] at h
      rcases List.mem_cons.1 hp with hpq | hpq
      · rw [← hpq, ho] at hoq
        simp only [Except.ok.injEq, Option.some.injEq] at hoq
        rw [← h, hoq]
        exact List.mem_cons_self y rest
      · rw [← h]
        exact List.mem_cons_of_mem y (ih rest hpq hr)

theorem get_route_distance_nonneg (g : Graph) (u v la lo d : ℚ)
    (hA : ∀ a b d0, g.astar a b = some d0 → 0 ≤ d0)
    (h : get_route_distance g u v la lo = some d) : 0 ≤ d := by
  simp only [get_route_distance] at h
  by_cases h1 : g.nearest u v ∉ g.nodes ∨ g.nearest la lo ∉ g.nodes
  · rw [if_pos h1] at h
    cases h
  rw [if_neg h1] at h
  by_cases h2 : g.nearest u v = g.nearest la lo
  · rw [if_pos h2] at h
    simp only [Option.some.injEq] at h
    rw [← h]
  · rw [if_neg h2] at h
    exact hA _ _ d h

/-! Lemmas about the per-mode loop and the top-level pipeline. -/

theorem runMode_none (gg : Mode → Option Graph) (u v r : ℚ) (n : ℕ) (cands : List POI)
    (m : Mode) (h : gg m = none) : runMode gg u v r n cands m = (cands, Except.ok none) := by
  simp only [runMode, h]

theorem runMode_fst (gg : Mode → Option Graph) (u v r : ℚ) (n : ℕ) (cands : List POI)
    (m : Mode) : (runMode gg u v r n cands m).1 = cands := by
  rcases hg : gg m with _ | g
  · rw [runMode_none gg u v r n cands m hg]
  · simp only [runMode, hg]
    by_cases hl : Nat.min 32 cands.length = 0
    · rw [if_pos hl]
    · rw [if_neg hl]
      exact processAll_fst g u v m r cands

theorem min32_ne_zero (cands : List POI) (hne : cands ≠ []) :
    Nat.min 32 cands.length ≠ 0 := by
  have h0 : cands.length ≠ 0 := fun he => hne (List.eq_nil_of_length_eq_zero he)
  intro hmin
  have hmin2 : min 32 cands.length = 0 := hmin
  omega

theorem runMode_some_intro (gg : Mode → Option Graph) (u v r : ℚ) (n : ℕ) (cands : List POI)
    (m : Mode) (g : Graph) (valid : List POI) (hg : gg m = some g) (hne : cands ≠ [])
    (hv : (processAll g u v m r cands).2 = Except.ok valid) :
    (runMode gg u v r n cands m).2 =
      Except.ok (some ((sortByKey (sortKey m) valid).take n)) := by
  simp only [runMode, hg]
  rw [if_neg (min32_ne_zero cands hne)]
  dsimp only
  rw [hv]

theorem runMode_ok_some_inv (gg : Mode → Option Graph) (u v r : ℚ) (n : ℕ) (cands : List POI)
    (m : Mode) (l : List POI) (h : (runMode gg u v r n cands m).2 = Except.ok (some l)) :
    ∃ g, gg m = some g ∧ ∃ valid, (processAll g u v m r cands).2 = Except.ok valid ∧
      l = (sortByKey (sortKey m) valid).take n := by
  rcases hg : gg m with _ | g
  · rw [runMode_none gg u v r n cands m hg] at h
    exact absurd h (by simp)
  simp only [runMode, hg] at h
  by_cases hl : Nat.min 32 cands.length = 0
  · rw [if_pos hl] at h
    exact absurd h (by simp)
  rw [if_neg hl] at h
  dsimp only at h
  rcases hv : (processAll g u v m r cands).2 with e | valid <;> rw [hv] at h
  · exact absurd h (by simp)
  simp only [Except.ok.injEq, Option.some.injEq] at h
  exact ⟨g, rfl, valid, hv, h.symm⟩

theorem runMode_ok_none_inv (gg : Mode → Option Graph) (u v r : ℚ) (n : ℕ) (cands : List POI)
    (m : Mode) (h : (runMode gg u v r n cands m).2 = Except.ok none) : gg m = none := by
  rcases hg : gg m with _ | g
  · rfl
  exfalso
  simp only [runMode, hg] at h
  by_cases hl : Nat.min 32 cands.length = 0
  · rw [if_pos hl] at h
    exact absurd h (by simp)
  rw [if_neg hl] at h
  dsimp only at h
  rcases hv : (processAll g u v m r cands).2 with e | valid <;> rw [hv] at h <;>
    exact absurd h (by simp)

theorem get_top_n_eq (gg : Mode → Option Graph) (cands : List POI) (u v r : ℚ) (n : ℕ) :
    get_top_n_by_route_distance_for_all_modes gg cands u v r n =
      (cands,
        match (runMode gg u v r n cands Mode.drive).2 with
        | Except.error e => Except.error e
        | Except.ok o1 =>
          match (runMode gg u v r n cands Mode.walk).2 with
          | Except.error e => Except.error e
          | Except.ok o2 => Except.ok (optEntry Mode.drive o1 ++ optEntry Mode.walk o2)) := by
  simp only [get_top_n_by_route_distance_for_all_modes, runMode_fst]
  rcases h1 : (runMode gg u v r n cands Mode.drive).2 with e | o1
  · rfl
  rcases h2 : (runMode gg u v r n cands Mode.walk).2 with e | o2 <;> rfl

theorem get_top_n_fst (gg : Mode → Option Graph) (cands : List POI) (u v r : ℚ) (n : ℕ) :
    (get_top_n_by_route_distance_for_all_modes gg cands u v r n).1 = cands := by
  rw [get_top_n_eq]

theorem get_top_n_ok_inv (gg : Mode → Option Graph) (cands : List POI) (u v r : ℚ) (n : ℕ)
    (res : AllResults)
    (h : (get_top_n_by_route_distance_for_all_modes gg cands u v r n).2 = Except.ok res) :
    ∃ o1 o2, (runMode gg u v r n cands Mode.drive).2 = Except.ok o1 ∧
      (runMode gg u v r n cands Mode.walk).2 = Except.ok o2 ∧
      res = optEntry Mode.drive o1 ++ optEntry Mode.walk o2 := by
  rw [get_top_n_eq] at h
  dsimp only at h
  rcases h1 : (runMode gg u v r n cands Mode.drive).2 with e | o1 <;> rw [h1] at h
  · exact absurd h (by simp)
  rcases h2 : (runMode gg u v r n cands Mode.walk).2 with e | o2 <;> rw [h2] at h
  · exact absurd h (by simp)
  simp only [Except.ok.injEq] at h
  exact ⟨o1, o2, rfl, rfl, h.symm⟩

theorem get_top_n_intro (gg : Mode → Option Graph) (cands : List POI) (u v r : ℚ) (n : ℕ)
    (o1 o2 : Option (List POI)) (h1 : (runMode gg u v r n cands Mode.drive).2 = Except.ok o1)
    (h2 : (runMode gg u v r n cands Mode.walk).2 = Except.ok o2) :
    (get_top_n_by_route_distance_for_all_modes gg cands u v r n).2 =
      Except.ok (optEntry Mode.drive o1 ++ optEntry Mode.walk o2) := by
  rw [get_top_n_eq]
  dsimp only
  rw [h1, h2]

theorem resLookup_optEntry (o1 o2 : Option (List POI)) (m : Mode) :
    resLookup (optEntry Mode.drive o1 ++ optEntry Mode.walk o2) m =
      (match m with | Mode.drive => o1 | Mode.walk => o2) := by
  rcases o1 with _ | l1 <;> rcases o2 with _ | l2 <;> rcases m <;>
    simp [optEntry, resLookup]

theorem validate_top_ok_inv (res res2 : AllResults)
    (h : validate_top_candidates res = Except.ok res2) :
    res2 = [(Mode.drive, lookupMode res Mode.drive), (Mode.walk, lookupMode res Mode.walk)] := by
  rw [validate_top_candidates] at h
  rcases h1 : validateList (lookupMode res Mode.drive) with e | dl <;> rw [h1] at h
  · exact absurd h (by simp)
  rcases h2 : validateList (lookupMode res Mode.walk) with e | wl <;> rw [h2] at h
  · exact absurd h (by simp)
  simp only [Except.ok.injEq] at h
  rw [← h, validateList_ok_inv _ _ h1, validateList_ok_inv _ _ h2]

theorem validate_top_ok_of (res : AllResults)
    (hd : ∀ p ∈ lookupMode res Mode.drive, hasRequiredKeys p = true)
    (hw : ∀ p ∈ lookupMode res Mode.walk, hasRequiredKeys p = true) :
    validate_top_candidates res =
      Except.ok [(Mode.drive, lookupMode res Mode.drive),
        (Mode.walk, lookupMode res Mode.walk)] := by
  rw [validate_top_candidates, validateList_ok_of _ hd, validateList_ok_of _ hw]

theorem keepsPOI_eq_true (hav : ℚ → ℚ → ℚ → ℚ → ℚ) (u v maxd : ℚ) (p : POI) :
    keepsPOI hav u v maxd p = true ↔
      ∃ la lo, p.latitude = some la ∧ p.longitude = some lo ∧ hav u v la lo ≤ maxd := by
  rcases hla : p.latitude with _ | la <;> rcases hlo : p.longitude with _ | lo <;>
    simp [keepsPOI, hla, hlo]

theorem applyPosts_cons (pred : POI → Bool) (posts : List POI) (c : POI) (cs : List POI) :
    applyPosts pred posts (c :: cs) =
      if pred c then
        (match posts with
        | [] => c :: applyPosts pred [] cs
        | p :: ps => p :: applyPosts pred ps cs)
      else c :: applyPosts pred posts cs := rfl

theorem applyPosts_filter (pred : POI → Bool) (l : List POI) :
    applyPosts pred (l.filter pred) l = l := by
  induction l with
  | nil => rfl
  | cons c cs ih =>
    by_cases hc : pred c
    · rw [List.filter_cons_of_pos hc, applyPosts_cons, if_pos hc]
      dsimp only
      rw [ih]
    · rw [List.filter_cons_of_neg hc, applyPosts_cons, if_neg hc, ih]

theorem find_snd_le50 (hav : ℚ → ℚ → ℚ → ℚ → ℚ) (gg : Mode → Option Graph) (cands : List POI)
    (u v r : ℚ) (n : ℕ) (h0 : cands ≠ []) (h50 : ¬ 50 < cands.length) :
    (find_top_candidates hav gg cands u v r n).2 =
      (match (get_top_n_by_route_distance_for_all_modes gg cands u v r n).2 with
      | Except.error e => Except.error e
      | Except.ok res => validate_top_candidates res) := by
  simp only [find_top_candidates]
  rw [if_neg (fun hc => h0 (List.eq_nil_of_length_eq_zero hc)), if_neg h50]

theorem find_fst_le50 (hav : ℚ → ℚ → ℚ → ℚ → ℚ) (gg : Mode → Option Graph) (cands : List POI)
    (u v r : ℚ) (n : ℕ) (h0 : cands ≠ []) (h50 : ¬ 50 < cands.length) :
    (find_top_candidates hav gg cands u v r n).1 = cands := by
  simp only [find_top_candidates]
  rw [if_neg (fun hc => h0 (List.eq_nil_of_length_eq_zero hc)), if_neg h50]
  exact get_top_n_fst gg cands u v r n

theorem find_snd_gt50 (hav : ℚ → ℚ → ℚ → ℚ → ℚ) (gg : Mode → Option Graph) (cands : List POI)
    (u v r : ℚ) (n : ℕ) (h50 : 50 < cands.length) :
    (find_top_candidates hav gg cands u v r n).2 =
      (get_top_n_by_route_distance_for_all_modes gg
        (prefilter_candidates_by_distance hav cands u v (r * (3 / 2))) u v r n).2 := by
  simp only [find_top_candidates]
  rw [if_neg (by omega : ¬ cands.length = 0), if_pos h50]

theorem find_fst_gt50 (hav : ℚ → ℚ → ℚ → ℚ → ℚ) (gg : Mode → Option Graph) (cands : List POI)
    (u v r : ℚ) (n : ℕ) (h50 : 50 < cands.length) :
    (find_top_candidates hav gg cands u v r n).1 = cands := by
  simp only [find_top_candidates]
  rw [if_neg (by omega : ¬ cands.length = 0), if_pos h50]
  dsimp only
  rw [get_top_n_fst]
  exact applyPosts_filter _ cands

/-! Central characterization of a mode's list in the result of `find_top_candidates`. -/

theorem mode_result_inv (gg : Mode → Option Graph) (u v r : ℚ) (n : ℕ) (cands : List POI)
    (m : Mode) (o : Option (List POI)) (l : List POI)
    (hM : (runMode gg u v r n cands m).2 = Except.ok o) (hl : l = o.getD []) :
    (∃ g valid, gg m = some g ∧ (processAll g u v m r cands).2 = Except.ok valid ∧
      l = (sortByKey (sortKey m) valid).take n) ∨ (gg m = none ∧ l = []) := by
  cases o with
  | none => exact Or.inr ⟨runMode_ok_none_inv gg u v r n cands m hM, hl⟩
  | some l0 =>
    obtain ⟨g, hg, valid, hv, hlo⟩ := runMode_ok_some_inv gg u v r n cands m l0 hM
    refine Or.inl ⟨g, valid, hg, hv, ?_⟩
    simp only [Option.getD_some] at hl
    rw [hl, hlo]

theorem effInput_gt50 (hav : ℚ → ℚ → ℚ → ℚ → ℚ) (cands : List POI) (u v r : ℚ)
    (h50 : 50 < cands.length) :
    effInput hav cands u v r =
      prefilter_candidates_by_distance hav cands u v (r * (3 / 2)) := by
  rw [effInput, if_pos h50]

theorem effInput_le50 (hav : ℚ → ℚ → ℚ → ℚ → ℚ) (cands : List POI) (u v r : ℚ)
    (h50 : ¬ 50 < cands.length) : effInput hav cands u v r = cands := by
  rw [effInput, if_neg h50]

theorem find_lookup_inv (hav : ℚ → ℚ → ℚ → ℚ → ℚ) (gg : Mode → Option Graph)
    (cands : List POI) (u v r : ℚ) (n : ℕ) (res : AllResults) (m : Mode) (l : List POI)
    (hok : (find_top_candidates hav gg cands u v r n).2 = Except.ok res)
    (hlk : resLookup res m = some l) :
    (∃ g valid, gg m = some g ∧
      (processAll g u v m r (effInput hav cands u v r)).2 = Except.ok valid ∧
      l = (sortByKey (sortKey m) valid).take n)
    ∨ (gg m = none ∧ l = []) := by
  by_cases h0 : cands.length = 0
  · exfalso
    simp only [find_top_candidates, if_pos h0] at hok
    simp only [Except.ok.injEq] at hok
    rw [← hok] at hlk
    simp [resLookup] at hlk
  by_cases h50 : 50 < cands.length
  · rw [find_snd_gt50 hav gg cands u v r n h50] at hok
    obtain ⟨o1, o2, h1, h2, hres⟩ := get_top_n_ok_inv gg _ u v r n res hok
    rw [hres, resLookup_optEntry] at hlk
    rw [effInput_gt50 hav cands u v r h50]
    have hM : (runMode gg u v r n
        (prefilter_candidates_by_distance hav cands u v (r * (3 / 2))) m).2 =
        Except.ok (some l) := by
      cases m
      · dsimp only at hlk
        rw [← hlk]
        exact h1
      · dsimp only at hlk
        rw [← hlk]
        exact h2
    exact mode_result_inv gg u v r n _ m (some l) l hM rfl
  · have hne : cands ≠ [] := fun hc => h0 (by rw [hc]; rfl)
    rw [find_snd_le50 hav gg cands u v r n hne h50] at hok
    rcases hres0 : (get_top_n_by_route_distance_for_all_modes gg cands u v r n).2
      with e | res0 <;> rw [hres0] at hok
    · exact absurd hok (by simp)
    have hres := validate_top_ok_inv res0 res hok
    obtain ⟨o1, o2, h1, h2, hsplit⟩ := get_top_n_ok_inv gg cands u v r n res0 hres0
    rw [effInput_le50 hav cands u v r h50]
    cases m with
    | drive =>
      have hro : resLookup res0 Mode.drive = o1 := by
        rw [hsplit, resLookup_optEntry]
      refine mode_result_inv gg u v r n cands Mode.drive o1 l h1 ?_
      rw [hres] at hlk
      simp [resLookup] at hlk
      rw [← hlk, lookupMode, hro]
    | walk =>
      have hro : resLookup res0 Mode.walk = o2 := by
        rw [hsplit, resLookup_optEntry]
      refine mode_result_inv gg u v r n cands Mode.walk o2 l h2 ?_
      rw [hres] at hlk
      simp [resLookup] at hlk
      rw [← hlk, lookupMode, hro]

theorem mem_take_sort (m : Mode) (valid : List POI) (n : ℕ) (x : POI)
    (hx : x ∈ (sortByKey (sortKey m) valid).take n) : x ∈ valid :=
  (sortByKey_perm (sortKey m) valid).subset (List.take_subset n _ hx)

/-! Forward construction: the drive mode succeeds, the walk mode's graph is missing. -/

theorem get_top_n_drive_only (gg : Mode → Option Graph) (u v r : ℚ) (n : ℕ) (L : List POI)
    (g : Graph) (valid : List POI) (hw : gg Mode.walk = none) (hd : gg Mode.drive = some g)
    (hne : L ≠ []) (hv : (processAll g u v Mode.drive r L).2 = Except.ok valid) :
    (get_top_n_by_route_distance_for_all_modes gg L u v r n).2 =
      Except.ok [(Mode.drive, (sortByKey (sortKey Mode.drive) valid).take n)] := by
  have h1 := runMode_some_intro gg u v r n L Mode.drive g valid hd hne hv
  have h2 : (runMode gg u v r n L Mode.walk).2 = Except.ok none := by
    rw [runMode_none gg u v r n L Mode.walk hw]
  have h3 := get_top_n_intro gg L u v r n _ _ h1 h2
  rw [h3]
  rfl

/-! Claim theorems. -/

/-! Cache lemmas and fixtures. -/

theorem odSet_length_le {V : Type} (c : GraphCache V) (k : GraphKey) (v : V) :
    (odSet c k v).length ≤ c.length + 1 := by
  rw [odSet]
  by_cases h : (cacheLookup c k).isSome
  · rw [if_pos h, List.length_map]
    omega
  · rw [if_neg h, List.length_append]
    simp

theorem cacheLookup_drop_one_none (V : Type) (c : GraphCache V) (k : GraphKey)
    (h : cacheLookup c k = none) : cacheLookup (c.drop 1) k = none := by
  cases c with
  | nil => exact h
  | cons x rest =>
    rw [cacheLookup] at h
    by_cases hx : x.1 = k
    · rw [if_pos hx] at h
      cases h
    · rw [if_neg hx] at h
      exact h

/-- A cache at capacity: 50 entries (all under the same key, which is irrelevant to
the eviction discipline). -/
def cacheFull : GraphCache Nat :=
  List.replicate 50 (((0 : ℚ), (0 : ℚ), (0 : ℚ), Mode.drive), 7)

/-- A key not present in `cacheFull`. -/
def keyNew : GraphKey := (1, 0, 0, Mode.drive)

/-- The key cached in `cacheOne`. -/
def keyOld : GraphKey := (0, 0, 0, Mode.drive)

/-- A one-entry cache. -/
def cacheOne : GraphCache Nat := [(keyOld, 7)]

/-- A provider that always fails: a hit must not consult it. -/
def provNone : GraphKey → Option Nat := fun _ => none

/-! Claim theorems. -/

/-- C1: the claim says an empty candidate list yields a `RankedCandidates` in which
every requested mode key (drive and walk) is present and maps to an empty list. The
code instead returns the empty dict `{}` (line 199 `return {}`), with NO mode keys,
bypassing `validate_top_candidates` — contradicting the function's own docstring
("Dict containing: drive ... walk ..."). This closed theorem evaluates the code at
the failing input: the result is the keyless empty dict, identically for a provider
that fails and one that succeeds (so no route computation is attempted), and both
mode lookups are absent. -/
theorem C1_empty_input_returns_keyless_dict :
    find_top_candidates havZero ggNone [] 0 0 100 5 = ([], Except.ok []) ∧
    find_top_candidates havZero ggAll [] 0 0 100 5 = ([], Except.ok []) ∧
    resLookup ([] : AllResults) Mode.drive = none ∧
    resLookup ([] : AllResults) Mode.walk = none :=
  ⟨rfl, rfl, rfl, rfl⟩

/-- C2: the claim says a candidate lacking `subcategory` is excluded and reported
while the call returns the remaining candidates. In the code, `process_candidate`
catches only `KeyError`, but `validate_poi_data` raises `ValueError` — which
escapes `process_candidate`, `executor.map` and `find_top_candidates`. This closed
theorem evaluates the code on one valid and one subcategory-less candidate, both
within radius: the whole call raises `ValueError` instead of returning a result. -/
theorem C2_missing_subcategory_raises :
    (find_top_candidates havZero ggAll [pGood, pBad] 0 0 100 5).2 =
      Except.error "Invalid POI data, missing keys: subcategory" := rfl

/-- C9: with more than 50 candidates whose Haversine distances all exceed
`radius_m * 1.5`, the prefilter empties the candidate list, and the mode loop then
requests `ThreadPoolExecutor(max_workers=min(32, 0))`, which raises `ValueError`:
`find_top_candidates` raises instead of returning a result. This closed theorem
evaluates the code at such an input (51 far-away candidates, working provider). -/
theorem C9_empty_prefilter_raises :
    (find_top_candidates havFar ggAll cands51 0 0 100 5).2 =
      Except.error "ValueError: max_workers must be greater than 0" := by
  have h : (100 : ℚ) * (3 / 2) = 150 := by norm_num
  simp only [find_top_candidates, h]
  rfl

/-- C10: `find_top_candidates` never mutates its input: the post-state of the
caller's candidate records equals the input list (distances are attached to a copy
of each record inside `process_candidate`, whose record post-state is its input),
and the prefilter merely selects a sublist of the input without modifying it. -/
theorem C10_no_input_mutation (hav : ℚ → ℚ → ℚ → ℚ → ℚ) (gg : Mode → Option Graph)
    (cands : List POI) (u v r : ℚ) (n : ℕ) :
    (find_top_candidates hav gg cands u v r n).1 = cands ∧
    (∀ maxd, List.Sublist (prefilter_candidates_by_distance hav cands u v maxd) cands) ∧
    (∀ g p m, (process_candidate g u v p m r).1 = p) := by
  refine ⟨?_, fun maxd => List.filter_sublist cands, fun g p m => rfl⟩
  by_cases h0 : cands.length = 0
  · have hc : cands = [] := List.eq_nil_of_length_eq_zero h0
    subst hc
    rfl
  by_cases h50 : 50 < cands.length
  · exact find_fst_gt50 hav gg cands u v r n h50
  · exact find_fst_le50 hav gg cands u v r n
      (fun hc => h0 (by rw [hc]; rfl)) h50

/-- C8: the graph cache is bounded by `MAX_CACHE_SIZE = 50`: an insertion never
grows it beyond 50 entries; when the cache is full and the key is new, the
oldest-inserted entry (the head, in insertion order — independently of any
accesses, i.e. FIFO rather than recency eviction) is evicted and the new binding
is appended; and a `get_network_graph` hit returns the cached graph with zero
provider invocations and an unchanged cache. -/
theorem C8_cache_bounded_fifo :
    (∀ (V : Type) (c : GraphCache V) (k : GraphKey) (v : V),
      c.length ≤ MAX_CACHE_SIZE → (cache_graph c k v).length ≤ MAX_CACHE_SIZE) ∧
    (∀ (V : Type) (c : GraphCache V) (k : GraphKey) (v : V),
      c.length = MAX_CACHE_SIZE → cacheLookup c k = none →
      cache_graph c k v = c.drop 1 ++ [(k, v)]) ∧
    (∀ (V : Type) (provider : GraphKey → Option V) (c : GraphCache V) (k : GraphKey)
      (g : V), cacheLookup c k = some g →
      get_network_graph provider c k = (some g, c, 0)) := by
  refine ⟨?_, ?_, ?_⟩
  · intro V c k v hlen
    rw [cache_graph]
    by_cases hfull : MAX_CACHE_SIZE ≤ c.length
    · rw [if_pos hfull]
      have h1 := odSet_length_le (c.drop 1) k v
      have h2 : (c.drop 1).length = c.length - 1 := List.length_drop 1 c
      rw [MAX_CACHE_SIZE] at hlen hfull ⊢
      omega
    · rw [if_neg hfull]
      have h1 := odSet_length_le c k v
      rw [MAX_CACHE_SIZE] at hfull ⊢
      omega
  · intro V c k v hlen hnone
    rw [cache_graph, if_pos (le_of_eq hlen.symm), odSet,
      if_neg (by rw [cacheLookup_drop_one_none V c k hnone]; simp)]
  · intro V provider c k g hsome
    simp only [get_network_graph, hsome]

/-- C8 witness: a full 50-entry cache evicts its head on inserting a fresh key and
stays within capacity; a one-entry cache hit returns the cached value without
consulting the provider. -/
theorem C8_cache_witness :
    (cache_graph cacheFull keyNew 99).length ≤ MAX_CACHE_SIZE ∧
    cache_graph cacheFull keyNew 99 = cacheFull.drop 1 ++ [(keyNew, 99)] ∧
    get_network_graph provNone cacheOne keyOld = (some 7, cacheOne, 0) :=
  ⟨C8_cache_bounded_fifo.1 Nat cacheFull keyNew 99 (by decide),
   C8_cache_bounded_fifo.2.1 Nat cacheFull keyNew 99 (by decide) (by decide),
   C8_cache_bounded_fifo.2.2 Nat provNone cacheOne keyOld 7 (by decide)⟩

/-- C5: every record in any returned mode list carries a finite
`{mode}_route_distance_m` value of at most `radius_m`: candidates with an infinite
or over-radius route distance were excluded during processing, and membership in
the output is preserved through sorting, truncation and re-validation. -/
theorem C5_distances_within_radius (hav : ℚ → ℚ → ℚ → ℚ → ℚ) (gg : Mode → Option Graph)
    (cands : List POI) (u v r : ℚ) (n : ℕ) (res : AllResults) (m : Mode) (l : List POI)
    (p : POI) (hok : (find_top_candidates hav gg cands u v r n).2 = Except.ok res)
    (hlk : resLookup res m = some l) (hp : p ∈ l) :
    ∃ d, modeDist p m = some d ∧ d ≤ r := by
  rcases find_lookup_inv hav gg cands u v r n res m l hok hlk with
    ⟨g, valid, hg, hv, hl⟩ | ⟨hgn, hl⟩
  · rw [hl] at hp
    have hpv := mem_take_sort m valid n p hp
    obtain ⟨q, hq, la, lo, d, hla, hlo, hd, hdr, hpd, hreq⟩ :=
      processAll_ok_mem g u v m r _ valid hv p hpv
    refine ⟨d, ?_, hdr⟩
    rw [hpd, modeDist_setModeDist_self]
  · rw [hl] at hp
    cases hp

/-- C5 witness: a concrete run with one candidate at the user's location: its drive
list entry carries a finite attached distance within the radius. -/
theorem C5_witness : ∃ d, modeDist pGoodD Mode.drive = some d ∧ d ≤ 100 :=
  C5_distances_within_radius havZero ggAll [pGood] 0 0 100 5
    [(Mode.drive, [pGoodD]), (Mode.walk, [pGoodW])] Mode.drive [pGoodD] pGoodD
    rfl rfl (by decide)

/-- C4: each returned mode list is the surviving candidates of that mode, sorted
non-decreasingly by the mode's attached distance key by a STABLE sort (the sorted
list is a permutation of the survivors, and for every key value the equal-key
records keep their original submission order), truncated to the first `n` entries;
hence its length is at most `n`. When the mode's graph was unavailable, the
validated output maps the mode to the empty list. -/
theorem C4_sorted_truncated_stable (hav : ℚ → ℚ → ℚ → ℚ → ℚ) (gg : Mode → Option Graph)
    (cands : List POI) (u v r : ℚ) (n : ℕ) (res : AllResults) (m : Mode) (l : List POI)
    (hok : (find_top_candidates hav gg cands u v r n).2 = Except.ok res)
    (hlk : resLookup res m = some l) :
    l.Pairwise (fun a b => sortKey m a ≤ sortKey m b) ∧ l.length ≤ n ∧
    ((∃ g valid, gg m = some g ∧
        (processAll g u v m r (effInput hav cands u v r)).2 = Except.ok valid ∧
        l = (sortByKey (sortKey m) valid).take n ∧
        (sortByKey (sortKey m) valid).Perm valid ∧
        (∀ c : ℚ, (sortByKey (sortKey m) valid).filter (fun x => decide (sortKey m x = c)) =
          valid.filter (fun x => decide (sortKey m x = c))))
      ∨ (gg m = none ∧ l = [])) := by
  rcases find_lookup_inv hav gg cands u v r n res m l hok hlk with
    ⟨g, valid, hg, hv, hl⟩ | ⟨hgn, hl⟩
  · refine ⟨?_, ?_, Or.inl ⟨g, valid, hg, hv, hl, sortByKey_perm (sortKey m) valid,
      fun c => filter_sortByKey (sortKey m) c valid⟩⟩
    · rw [hl]
      exact (sortByKey_pairwise (sortKey m) valid).sublist (List.take_sublist n _)
    · rw [hl]
      exact List.length_take_le n _
  · refine ⟨?_, ?_, Or.inr ⟨hgn, hl⟩⟩
    · rw [hl]
      exact List.Pairwise.nil
    · rw [hl]
      simp

/-- C4 witness: the concrete run of `C5_witness` instantiated in C4: the drive list
is sorted and within the requested length bound. -/
theorem C4_witness :
    List.Pairwise (fun a b => sortKey Mode.drive a ≤ sortKey Mode.drive b) [pGoodD] ∧
    [pGoodD].length ≤ 5 :=
  ⟨(C4_sorted_truncated_stable havZero ggAll [pGood] 0 0 100 5
      [(Mode.drive, [pGoodD]), (Mode.walk, [pGoodW])] Mode.drive [pGoodD] rfl rfl).1,
   (C4_sorted_truncated_stable havZero ggAll [pGood] 0 0 100 5
      [(Mode.drive, [pGoodD]), (Mode.walk, [pGoodW])] Mode.drive [pGoodD] rfl rfl).2.1⟩

/-- C6: the Haversine prefilter is applied exactly when the candidate count exceeds
50 — above 50 the result is that of the pipeline run on the prefiltered list with
bound `radius_m * 1.5`, at or below 50 the result does not depend on the Haversine
distance at all — and the prefilter is sound and complete with respect to the
Haversine distance: it keeps exactly the input records (in order) whose
coordinates are present and whose Haversine distance from the user is at most the
bound. The Haversine formula itself (Earth radius 6,371,000 m, floating-point
trigonometry) is the oracle `hav`. -/
theorem C6_prefilter_exact (hav hav2 : ℚ → ℚ → ℚ → ℚ → ℚ) (gg : Mode → Option Graph)
    (cands : List POI) (u v r maxd : ℚ) (n : ℕ) (p : POI) (la lo : ℚ) :
    (50 < cands.length →
      (find_top_candidates hav gg cands u v r n).2 =
        (get_top_n_by_route_distance_for_all_modes gg
          (prefilter_candidates_by_distance hav cands u v (r * (3 / 2))) u v r n).2) ∧
    (¬ 50 < cands.length →
      find_top_candidates hav gg cands u v r n = find_top_candidates hav2 gg cands u v r n) ∧
    (p ∈ prefilter_candidates_by_distance hav cands u v maxd →
      p ∈ cands ∧ ∃ la2 lo2, p.latitude = some la2 ∧ p.longitude = some lo2 ∧
        hav u v la2 lo2 ≤ maxd) ∧
    (p ∈ cands → p.latitude = some la → p.longitude = some lo → hav u v la lo ≤ maxd →
      p ∈ prefilter_candidates_by_distance hav cands u v maxd) := by
  refine ⟨fun h50 => find_snd_gt50 hav gg cands u v r n h50, fun h50 => ?_, fun hmem => ?_,
    fun hp hla hlo hle => ?_⟩
  · by_cases h0 : cands.length = 0
    · have hc : cands = [] := List.eq_nil_of_length_eq_zero h0
      subst hc
      rfl
    · simp only [find_top_candidates, if_neg h0, if_neg h50]
  · rw [prefilter_candidates_by_distance] at hmem
    have h2 := List.mem_filter.1 hmem
    exact ⟨h2.1, (keepsPOI_eq_true hav u v maxd p).1 h2.2⟩
  · rw [prefilter_candidates_by_distance]
    exact List.mem_filter.2 ⟨hp, (keepsPOI_eq_true hav u v maxd p).2 ⟨la, lo, hla, hlo, hle⟩⟩

/-- C6 witness: concrete inputs exercising all four conjuncts: the over-50 branch
equals the pipeline on the prefiltered list; a 1-element input is insensitive to
the Haversine oracle; and the prefilter keeps exactly the in-range record. -/
theorem C6_witness :
    ((find_top_candidates havZero ggDriveOnly cands51 0 0 100 5).2 =
      (get_top_n_by_route_distance_for_all_modes ggDriveOnly
        (prefilter_candidates_by_distance havZero cands51 0 0 (100 * (3 / 2))) 0 0 100 5).2) ∧
    (find_top_candidates havZero ggAll [pGood] 0 0 100 5 =
      find_top_candidates havFar ggAll [pGood] 0 0 100 5) ∧
    (pGood ∈ [pGood] ∧ ∃ la2 lo2, pGood.latitude = some la2 ∧ pGood.longitude = some lo2 ∧
      havZero 0 0 la2 lo2 ≤ 150) ∧
    pGood ∈ prefilter_candidates_by_distance havZero [pGood] 0 0 150 :=
  ⟨(C6_prefilter_exact havZero havZero ggDriveOnly cands51 0 0 100 150 5 pGood 0 0).1
      (by decide),
   (C6_prefilter_exact havZero havFar ggAll [pGood] 0 0 100 150 5 pGood 0 0).2.1
      (by decide),
   (C6_prefilter_exact havZero havZero ggAll [pGood] 0 0 100 150 5 pGood 0 0).2.2.1
      (by decide),
   (C6_prefilter_exact havZero havZero ggAll [pGood] 0 0 100 150 5 pGood 0 0).2.2.2
      (by decide) rfl rfl (by decide)⟩

/-- C7: a candidate whose coordinates equal the user's resolves to the same node,
so `get_route_distance` returns 0 on the fast path — for EVERY shortest-path
oracle, i.e. without invoking pathfinding — provided the resolved node belongs to
the graph (which the collaborator contract of the nearest-node resolver
guarantees: it answers with one of the graph's nodes). Moreover, when the mode's
graph reports only non-negative path lengths (edge weights are physical lengths),
no record anywhere in that mode's returned list carries a distance strictly below
0 — so no candidate with a strictly smaller distance than the coincident
candidate's 0 can precede it. -/
theorem C7_coincident_candidate (g : Graph) (ulat ulon : ℚ) :
    (g.nearest ulat ulon ∈ g.nodes →
      get_route_distance g ulat ulon ulat ulon = some 0 ∧
      ∀ f, get_route_distance { nodes := g.nodes, nearest := g.nearest, astar := f }
        ulat ulon ulat ulon = some 0) ∧
    (∀ (hav : ℚ → ℚ → ℚ → ℚ → ℚ) (gg : Mode → Option Graph) (cands : List POI)
      (r : ℚ) (n : ℕ) (res : AllResults) (m : Mode) (l : List POI),
      gg m = some g → (∀ a b d, g.astar a b = some d → 0 ≤ d) →
      (find_top_candidates hav gg cands ulat ulon r n).2 = Except.ok res →
      resLookup res m = some l →
      ∀ p ∈ l, ∀ d, modeDist p m = some d → 0 ≤ d) := by
  constructor
  · intro hmem
    constructor
    · simp only [get_route_distance]
      rw [if_neg (by push_neg; exact ⟨hmem, hmem⟩)]
      simp
    · intro f
      simp only [get_route_distance]
      rw [if_neg (by push_neg; exact ⟨hmem, hmem⟩)]
      simp
  · intro hav gg cands r n res m l hg hA hok hlk p hp d hd
    rcases find_lookup_inv hav gg cands ulat ulon r n res m l hok hlk with
      ⟨g2, valid, hg2, hv, hl⟩ | ⟨hgn, hl⟩
    · have hgg : g2 = g := by
        rw [hg] at hg2
        exact (Option.some.inj hg2).symm
      subst hgg
      rw [hl] at hp
      have hpv := mem_take_sort m valid n p hp
      obtain ⟨q, hq, la, lo, d2, hla, hlo, hdist, hdr, hpd, hreq⟩ :=
        processAll_ok_mem g2 ulat ulon m r _ valid hv p hpv
      have hmd : modeDist p m = some d2 := by
        rw [hpd, modeDist_setModeDist_self]
      have hdd : d = d2 := by
        rw [hmd] at hd
        exact (Option.some.inj hd).symm
      rw [hdd]
      exact get_route_distance_nonneg g2 ulat ulon la lo d2 hA hdist
    · rw [hl] at hp
      cases hp

/-- The one-node graph with its path oracle replaced by one that never finds a
path. -/
def gOneNoPath : Graph := { nodes := gOne.nodes, nearest := gOne.nearest, astar := fun _ _ => none }

/-- C7 witness: on the one-node graph the coincident query returns 0, also when the
path oracle is replaced by one that finds no path at all; and the concrete drive
list of a coincident candidate has no entry below distance 0. -/
theorem C7_witness :
    get_route_distance gOne 0 0 0 0 = some 0 ∧
    get_route_distance gOneNoPath 0 0 0 0 = some 0 ∧
    (0 : ℚ) ≤ 0 :=
  ⟨((C7_coincident_candidate gOne 0 0).1 (by decide)).1,
   ((C7_coincident_candidate gOne 0 0).1 (by decide)).2 (fun _ _ => none),
   (C7_coincident_candidate gOne 0 0).2 havZero ggAll [pGood] 100 5
     [(Mode.drive, [pGoodD]), (Mode.walk, [pGoodW])] Mode.drive [pGoodD] rfl
     (fun a b d h => by rw [← Option.some.inj h]; decide) rfl rfl pGoodD (by decide) 0 rfl⟩

/-- C3 counterexample: at a concrete input satisfying the claim's premises — the
provider fails for walk and succeeds for drive, 51 valid candidates all within
radius — the call succeeds with a non-empty drive list, but the result (the raw
dict of the over-50 path, returned WITHOUT `validate_top_candidates`) has NO
'walk' key at all, refuting "contains the key 'walk' mapped to an empty list". -/
theorem C3_counterexample :
    (find_top_candidates havZero ggDriveOnly cands51 0 0 100 5).2 =
      Except.ok [(Mode.drive, List.replicate 5 pGoodD)] ∧
    resLookup [(Mode.drive, List.replicate 5 pGoodD)] Mode.walk = none ∧
    List.replicate 5 pGoodD ≠ [] := by
  refine ⟨?_, rfl, by decide⟩
  have h : (100 : ℚ) * (3 / 2) = 150 := by norm_num
  simp only [find_top_candidates, h]
  rfl

/-- C3 (amended): when the graph provider fails for walk but succeeds for drive,
the records are valid, and at least one candidate's route distance is within the
radius, the call does not raise and returns a non-empty drive list; the walk key
is present and maps to the empty list when the candidate count is at most 50 (the
validated path), and is ABSENT when the count exceeds 50 (the prefilter path skips
`validate_top_candidates`), provided the witness candidate passes the prefilter. -/
theorem C3_walk_unavailable (hav : ℚ → ℚ → ℚ → ℚ → ℚ) (gg : Mode → Option Graph)
    (cands : List POI) (u v r : ℚ) (n : ℕ) (g : Graph)
    (hwalk : gg Mode.walk = none) (hdrive : gg Mode.drive = some g)
    (hvalid : ∀ q ∈ cands, hasRequiredKeys q = true) (hn : 1 ≤ n)
    (p : POI) (la lo d : ℚ) (hp : p ∈ cands) (hla : p.latitude = some la)
    (hlo : p.longitude = some lo) (hd : get_route_distance g u v la lo = some d)
    (hdr : d ≤ r) :
    (cands.length ≤ 50 →
      ∃ res dl, (find_top_candidates hav gg cands u v r n).2 = Except.ok res ∧
        resLookup res Mode.drive = some dl ∧ dl ≠ [] ∧
        resLookup res Mode.walk = some []) ∧
    (50 < cands.length → hav u v la lo ≤ r * (3 / 2) →
      ∃ res dl, (find_top_candidates hav gg cands u v r n).2 = Except.ok res ∧
        resLookup res Mode.drive = some dl ∧ dl ≠ [] ∧
        resLookup res Mode.walk = none) := by
  have hne : cands ≠ [] := by
    intro hc
    rw [hc] at hp
    cases hp
  constructor
  · intro h50
    have h50x : ¬ 50 < cands.length := by omega
    obtain ⟨valid, hv⟩ := processAll_ok_of_valid g u v Mode.drive r cands hvalid
    have hgt := get_top_n_drive_only gg u v r n cands g valid hwalk hdrive hne hv
    have hop := processOutcome_keep g u v p Mode.drive r la lo d hla hlo hd hdr (hvalid p hp)
    have hdlne : (sortByKey (sortKey Mode.drive) valid).take n ≠ [] := by
      apply take_ne_nil_of_ne_nil _ n hn
      apply sortByKey_ne_nil
      intro hvnil
      have hxin := processAll_mem_some g u v Mode.drive r cands valid p _ hp hop hv
      rw [hvnil] at hxin
      cases hxin
    have hvd : ∀ x ∈ lookupMode [(Mode.drive, (sortByKey (sortKey Mode.drive) valid).take n)]
        Mode.drive, hasRequiredKeys x = true := by
      intro x hx
      have hx2 : x ∈ (sortByKey (sortKey Mode.drive) valid).take n := hx
      have hxv := mem_take_sort Mode.drive valid n x hx2
      obtain ⟨q, hq, la2, lo2, d2, rest⟩ :=
        processAll_ok_mem g u v Mode.drive r cands valid hv x hxv
      exact rest.2.2.2.2.2
    have hvw : ∀ x ∈ lookupMode [(Mode.drive, (sortByKey (sortKey Mode.drive) valid).take n)]
        Mode.walk, hasRequiredKeys x = true := by
      intro x hx
      cases hx
    have hvt := validate_top_ok_of [(Mode.drive, (sortByKey (sortKey Mode.drive) valid).take n)]
      hvd hvw
    have e1 : lookupMode [(Mode.drive, (sortByKey (sortKey Mode.drive) valid).take n)]
        Mode.drive = (sortByKey (sortKey Mode.drive) valid).take n := rfl
    have e2 : lookupMode [(Mode.drive, (sortByKey (sortKey Mode.drive) valid).take n)]
        Mode.walk = ([] : List POI) := rfl
    rw [e1, e2] at hvt
    refine ⟨[(Mode.drive, (sortByKey (sortKey Mode.drive) valid).take n), (Mode.walk, [])],
      (sortByKey (sortKey Mode.drive) valid).take n, ?_, rfl, hdlne, rfl⟩
    rw [find_snd_le50 hav gg cands u v r n hne h50x, hgt]
    exact hvt
  · intro h50 hhav
    have hpF : p ∈ prefilter_candidates_by_distance hav cands u v (r * (3 / 2)) := by
      rw [prefilter_candidates_by_distance]
      exact List.mem_filter.2
        ⟨hp, (keepsPOI_eq_true hav u v (r * (3 / 2)) p).2 ⟨la, lo, hla, hlo, hhav⟩⟩
    have hFne : prefilter_candidates_by_distance hav cands u v (r * (3 / 2)) ≠ [] := by
      intro hc
      rw [hc] at hpF
      cases hpF
    have hFvalid : ∀ q ∈ prefilter_candidates_by_distance hav cands u v (r * (3 / 2)),
        hasRequiredKeys q = true := by
      intro q hq
      rw [prefilter_candidates_by_distance] at hq
      exact hvalid q (List.mem_filter.1 hq).1
    obtain ⟨valid, hv⟩ := processAll_ok_of_valid g u v Mode.drive r _ hFvalid
    have hgt := get_top_n_drive_only gg u v r n _ g valid hwalk hdrive hFne hv
    have hop := processOutcome_keep g u v p Mode.drive r la lo d hla hlo hd hdr (hvalid p hp)
    have hdlne : (sortByKey (sortKey Mode.drive) valid).take n ≠ [] := by
      apply take_ne_nil_of_ne_nil _ n hn
      apply sortByKey_ne_nil
      intro hvnil
      have hxin := processAll_mem_some g u v Mode.drive r _ valid p _ hpF hop hv
      rw [hvnil] at hxin
      cases hxin
    refine ⟨[(Mode.drive, (sortByKey (sortKey Mode.drive) valid).take n)],
      (sortByKey (sortKey Mode.drive) valid).take n, ?_, rfl, hdlne, rfl⟩
    rw [find_snd_gt50 hav gg cands u v r n h50, hgt]

/-- C3 witness: both amended halves at concrete inputs — one candidate (validated
path: walk key present, empty) and 51 candidates (prefilter path: walk key
absent), each with a non-empty drive list and no exception. -/
theorem C3_witness :
    (∃ res dl, (find_top_candidates havZero ggDriveOnly [pGood] 0 0 100 5).2 =
      Except.ok res ∧ resLookup res Mode.drive = some dl ∧ dl ≠ [] ∧
      resLookup res Mode.walk = some []) ∧
    (∃ res dl, (find_top_candidates havZero ggDriveOnly cands51 0 0 100 5).2 =
      Except.ok res ∧ resLookup res Mode.drive = some dl ∧ dl ≠ [] ∧
      resLookup res Mode.walk = none) :=
  ⟨(C3_walk_unavailable havZero ggDriveOnly [pGood] 0 0 100 5 gOne rfl rfl (by decide)
      (by decide) pGood 0 0 0 (by decide) rfl rfl rfl (by decide)).1 (by decide),
   (C3_walk_unavailable havZero ggDriveOnly cands51 0 0 100 5 gOne rfl rfl (by decide)
      (by decide) pGood 0 0 0 (by decide) rfl rfl rfl (by decide)).2 (by decide)
      (by norm_num [havZero])⟩

end LocPoi
